import Mathlib

/-!
Verification of the opfs-kit library: a path-addressed file-system API
(readFile / writeFile / exists / unlink / mkdir / readdir, plus a Buffer
byte container) layered over an OPFS-style handle-based storage backend.

The development shallowly embeds the TypeScript sources:
  - src/utils/fs-utils.ts : root initialization, path splitting and the
    directory-walking resolver (getDirectoryAndFileName, getDirectoryByPath);
  - src/fs.ts             : the public operations and their dual
    promise/callback calling conventions;
  - src/buffer.ts         : the Buffer object (from / alloc / toString).

JavaScript strings are embedded as List Char; byte sequences (Uint8Array)
as List Nat; the backend's directory tree as an inductive tree keyed by
entry name.  Operations thread the mutable module state (the memoized
root, the backing store) explicitly, and fallible backend calls return
Except.  Platform primitives used by the sources (TextEncoder /
TextDecoder, atob / btoa) are modelled from their WHATWG specifications.
-/

namespace OpfsKit

/-- An entry name, one path segment: a JavaScript string as a list of
characters. -/
abbrev Name := List Char

/-! ## Path splitting

JavaScript path.split('/') and array join('/'), as used by
getDirectoryAndFileName and getDirectoryByPath in fs-utils.ts. -/

/-- JavaScript String.prototype.split with separator '/': the result is
never empty, and empty segments (leading, repeated or trailing slashes)
are kept. -/
def splitSlash : List Char → List (List Char)
  | [] => [[]]
  | c :: cs =>
    if c = '/' then [] :: splitSlash cs
    else
      match splitSlash cs with
      | [] => [[c]]
      | s :: rest => (c :: s) :: rest

/-- JavaScript Array.prototype.join with separator '/'. -/
def joinSlash : List (List Char) → List Char
  | [] => []
  | [s] => s
  | s :: rest => s ++ '/' :: joinSlash rest

/-- The non-empty segments of a path: `path.split('/').filter(p => p.length > 0)`,
the segment list walked by getDirectoryByPath. -/
def nonemptySegs (path : List Char) : List Name :=
  (splitSlash path).filter (fun s => s ≠ [])

/-- The directory-segment list that getDirectoryAndFileName hands to
getDirectoryByPath: the path is split on '/', the last raw segment is
popped off as the file name, the rest is re-joined; an empty join means
the root is used directly, otherwise the joined directory path is
re-split and filtered to its non-empty segments. -/
def resolveParentSegs (path : List Char) : List Name :=
  let parts := splitSlash path
  let directoryPath := joinSlash parts.dropLast
  if directoryPath = [] then []
  else nonemptySegs directoryPath

/-- The leaf (file) name produced by getDirectoryAndFileName:
`parts.pop() || ''`.  `parts` is never empty, and a popped empty string
is kept as the empty name. -/
def resolveLeafName (path : List Char) : Name :=
  ((splitSlash path).getLast?).getD []

/-! ## The backend store

OPFS exposes a tree of named handles: directories hold named children,
files hold byte content.  Handles are only reachable by chained
getDirectoryHandle / getFileHandle lookups from the root. -/

/-- A node of the backend store: a file with byte content, or a
directory with named children (in insertion order, as OPFS enumerates). -/
inductive FsTree where
  | file (content : List Nat)
  | dir (children : List (Name × FsTree))

/-- Lookup of a named child in a directory's children list. -/
def findEntry : List (Name × FsTree) → Name → Option FsTree
  | [], _ => none
  | (n, e) :: rest, m => if n = m then some e else findEntry rest m

/-- Replace a named child, or append it when absent (the effect of a
create-mode getDirectoryHandle / getFileHandle, and of committing a
writable stream). -/
def setEntry : List (Name × FsTree) → Name → FsTree → List (Name × FsTree)
  | [], n, e => [(n, e)]
  | (n', e') :: rest, n, e =>
    if n' = n then (n, e) :: rest else (n', e') :: setEntry rest n e

/-- Pure observation: walk a segment list from a children list.  The
empty path denotes the directory itself. -/
def lookupPath (cs : List (Name × FsTree)) : List Name → Option FsTree
  | [] => some (.dir cs)
  | s :: rest =>
    match findEntry cs s with
    | some (.dir d) => lookupPath d rest
    | some (.file c) => if rest = [] then some (.file c) else none
    | none => none

/-- Whether a directory is reachable at the given segment list. -/
def isDirAt (cs : List (Name × FsTree)) (segs : List Name) : Bool :=
  match lookupPath cs segs with
  | some (.dir _) => true
  | _ => false

/-- The content of the file reachable at the given segment list, if any. -/
def fileContentAt (cs : List (Name × FsTree)) (segs : List Name) : Option (List Nat) :=
  match lookupPath cs segs with
  | some (.file c) => some c
  | _ => none

/-- Error taxonomy.  The backend raises notFound / typeMismatch /
invalidName; initialization raises unsupported when the capability probe
fails; atob raises invalidBase64; each public operation rewraps any
caught error with its own descriptive prefix (wrapped). -/
inductive WrapTag where
  | reading | writing | deleting | creatingDir | readingDir
  deriving DecidableEq, Repr

inductive FsErr where
  | unsupported
  | notFound
  | typeMismatch
  | invalidName
  | invalidBase64
  | wrapped (tag : WrapTag) (inner : FsErr)
  deriving DecidableEq, Repr

deriving instance DecidableEq for Except

/-- The directory walk of getDirectoryByPath: descend through the given
segments (creating missing directories when create is set, as OPFS
getDirectoryHandle with create: true), then run the continuation k on
the reached directory's children — k models whatever backend calls the
caller performs on the returned directory handle.  The updated tree is
rebuilt on the way out, so directories created before a failure persist,
exactly as the sequential awaits in the source mutate the store. -/
def withDirPath (k : List (Name × FsTree) → List (Name × FsTree) × Except FsErr α) :
    List (Name × FsTree) → List Name → Bool → List (Name × FsTree) × Except FsErr α
  | cs, [], _ => k cs
  | cs, seg :: rest, create =>
    match findEntry cs seg with
    | some (.dir d) =>
      let (d', r) := withDirPath k d rest create
      (setEntry cs seg (.dir d') , r)
    | some (.file _) => (cs, .error .typeMismatch)
    | none =>
      if create then
        let (d', r) := withDirPath k [] rest create
        (setEntry cs seg (.dir d'), r)
      else (cs, .error .notFound)

/-- OPFS getFileHandle(name, { create }) at a directory: an existing
file is returned, a directory under that name is a type mismatch, an
absent name is created empty when create is set and is notFound
otherwise.  The empty name is invalid. -/
def getFileAt (cs : List (Name × FsTree)) (n : Name) (create : Bool) :
    List (Name × FsTree) × Except FsErr (List Nat) :=
  if n = [] then (cs, .error .invalidName)
  else
    match findEntry cs n with
    | some (.file data) => (cs, .ok data)
    | some (.dir _) => (cs, .error .typeMismatch)
    | none =>
      if create then (setEntry cs n (.file []), .ok []) else (cs, .error .notFound)

/-! ## Module state and root initialization (fs-utils.ts) -/

/-- The module-level state of fs-utils.ts: whether the environment
supports OPFS (isOPFSSupported), whether the module-level rootDirectory
variable has been assigned, and the backing store the root handle
denotes. -/
structure SysSt where
  supported : Bool
  rootInit : Bool
  store : List (Name × FsTree)

/-- initialize() from fs-utils.ts: throw when OPFS is unsupported,
otherwise acquire the root handle once (`if (!rootDirectory) rootDirectory
= await navigator.storage.getDirectory()`).  (The source's follow-up
null check after initialize can never fire and has no model state.) -/
def initRootOp (st : SysSt) : SysSt × Except FsErr Unit :=
  if st.supported then
    if st.rootInit then (st, .ok ()) else ({ st with rootInit := true }, .ok ())
  else (st, .error .unsupported)

/-- getDirectoryByPath(path, create) followed by the caller's use k of
the returned directory handle: initialize the root, split the path,
filter empty segments, and walk (creating when asked). -/
def getDirectoryByPathOp (st : SysSt) (path : List Char) (create : Bool)
    (k : List (Name × FsTree) → List (Name × FsTree) × Except FsErr α) :
    SysSt × Except FsErr α :=
  match initRootOp st with
  | (st1, .error e) => (st1, .error e)
  | (st1, .ok ()) =>
    let segs := nonemptySegs path
    let (store', r) := withDirPath k st1.store segs create
    ({ st1 with store := store' }, r)

/-- getDirectoryAndFileName(path) followed by the caller's use k of the
returned (directory handle, file name) pair: initialize the root, split
on '/', pop the last raw segment as the file name (`parts.pop() || ''`),
re-join the rest; when the joined directory path is empty the root is
used directly, otherwise it is resolved with create always true. -/
def getDirectoryAndFileNameOp (st : SysSt) (path : List Char)
    (k : List (Name × FsTree) → Name → List (Name × FsTree) × Except FsErr α) :
    SysSt × Except FsErr α :=
  match initRootOp st with
  | (st1, .error e) => (st1, .error e)
  | (st1, .ok ()) =>
    let parts := splitSlash path
    let fileName := (parts.getLast?).getD []
    let directoryPath := joinSlash parts.dropLast
    if directoryPath = [] then
      let (store', r) := k st1.store fileName
      ({ st1 with store := store' }, r)
    else
      let segs := nonemptySegs directoryPath
      let (store', r) := withDirPath (fun cs => k cs fileName) st1.store segs true
      ({ st1 with store := store' }, r)

/-! ## UTF-8 (TextEncoder / TextDecoder, modelled from the WHATWG
Encoding standard) and Base64 (atob / btoa) -/

/-- UTF-8 encoding of a single Unicode scalar value (TextEncoder). -/
def utf8EncodeChar (c : Nat) : List Nat :=
  if c < 0x80 then [c]
  else if c < 0x800 then [0xC0 + c / 64, 0x80 + c % 64]
  else if c < 0x10000 then
    [0xE0 + c / 4096, 0x80 + (c / 64) % 64, 0x80 + c % 64]
  else
    [0xF0 + c / 0x40000, 0x80 + (c / 4096) % 64, 0x80 + (c / 64) % 64, 0x80 + c % 64]

/-- TextEncoder().encode: UTF-8 encoding of a string. -/
def utf8Encode : List Char → List Nat
  | [] => []
  | c :: cs => utf8EncodeChar c.toNat ++ utf8Encode cs

/-- The state of the WHATWG UTF-8 decoder: how many continuation bytes
are still needed, the accumulated code point so far, and the admissible
range for the next byte (tightened after an E0/ED/F0/F4 lead to rule
out overlong forms, surrogates and values above U+10FFFF). -/
structure Utf8St where
  needed : Nat
  acc : Nat
  lo : Nat
  hi : Nat

/-- The decoder's initial state. -/
def utf8St0 : Utf8St := { needed := 0, acc := 0, lo := 0x80, hi := 0xBF }

/-- Processing one byte in the initial state: ASCII is emitted as-is; a
stray continuation byte or an overlong C0/C1 lead or an out-of-range
F5.. lead is one replacement character; a valid lead starts a
multi-byte sequence with the WHATWG boundary adjustments. -/
def utf8LeadStep (b : Nat) : List Nat × Utf8St :=
  if b < 0x80 then ([b], utf8St0)
  else if b < 0xC2 then ([0xFFFD], utf8St0)
  else if b < 0xE0 then ([], { needed := 1, acc := b - 0xC0, lo := 0x80, hi := 0xBF })
  else if b < 0xF0 then
    ([], { needed := 2, acc := b - 0xE0,
           lo := if b = 0xE0 then 0xA0 else 0x80,
           hi := if b = 0xED then 0x9F else 0xBF })
  else if b < 0xF5 then
    ([], { needed := 3, acc := b - 0xF0,
           lo := if b = 0xF0 then 0x90 else 0x80,
           hi := if b = 0xF4 then 0x8F else 0xBF })
  else ([0xFFFD], utf8St0)

/-- The WHATWG UTF-8 decoder loop: a pending sequence consumes bytes in
the admissible range, finishing with the accumulated scalar value; a
byte outside the range is an error that emits U+FFFD and is reprocessed
as a fresh lead; end of input with a pending sequence is one final
U+FFFD. -/
def utf8Run : List Nat → Utf8St → List Nat
  | [], st => if st.needed = 0 then [] else [0xFFFD]
  | b :: bs, st =>
    if st.needed = 0 then
      match utf8LeadStep b with
      | (out, st') => out ++ utf8Run bs st'
    else if st.lo ≤ b ∧ b ≤ st.hi then
      if st.needed = 1 then (st.acc * 64 + (b - 0x80)) :: utf8Run bs utf8St0
      else utf8Run bs { needed := st.needed - 1, acc := st.acc * 64 + (b - 0x80),
                        lo := 0x80, hi := 0xBF }
    else
      match utf8LeadStep b with
      | (out, st') => 0xFFFD :: (out ++ utf8Run bs st')

/-- TextDecoder().decode (non-fatal UTF-8 decoding): well-formed
sequences decode to their scalar values, malformed input degrades to
U+FFFD replacement characters.  It is total: decoding never fails. -/
def utf8DecodeReplace (bs : List Nat) : List Nat := utf8Run bs utf8St0

/-- The Base64 alphabet used by btoa / atob. -/
def base64Alphabet : List Char :=
  String.toList "ABCDEFGHIJKLMNOPQRSTUVWXYZabcdefghijklmnopqrstuvwxyz0123456789+/"

/-- Digit of the Base64 alphabet. -/
def b64Digit (n : Nat) : Char := base64Alphabet.getD n 'A'

/-- btoa over a byte sequence (as the sources call it: btoa of the
latin-1 string built from the held bytes): standard Base64 with '='
padding. -/
def base64Encode : List Nat → List Char
  | [] => []
  | [b1] => [b64Digit (b1 / 4), b64Digit (b1 % 4 * 16), '=', '=']
  | [b1, b2] => [b64Digit (b1 / 4), b64Digit (b1 % 4 * 16 + b2 / 16), b64Digit (b2 % 16 * 4), '=']
  | b1 :: b2 :: b3 :: rest =>
    b64Digit (b1 / 4) :: b64Digit (b1 % 4 * 16 + b2 / 16) ::
      b64Digit (b2 % 16 * 4 + b3 / 64) :: b64Digit (b3 % 64) :: base64Encode rest

/-- Value of a Base64 digit, none for a character outside the alphabet. -/
def b64Val (c : Char) : Option Nat :=
  let idx := base64Alphabet.indexOf c
  if idx < 64 then some idx else none

/-- atob, modelled from the WHATWG forgiving-base64 decode (without the
whitespace stripping, which the sources never rely on): quartets of
digits yield three bytes, a padded final quartet yields one or two, and
any other shape or any character outside the alphabet is an error. -/
def base64Decode : List Char → Option (List Nat)
  | [] => some []
  | [c1, c2, '=', '='] =>
    match b64Val c1, b64Val c2 with
    | some v1, some v2 => some [v1 * 4 + v2 / 16]
    | _, _ => none
  | [c1, c2, c3, '='] =>
    match b64Val c1, b64Val c2, b64Val c3 with
    | some v1, some v2, some v3 => some [v1 * 4 + v2 / 16, v2 % 16 * 16 + v3 / 4]
    | _, _, _ => none
  | c1 :: c2 :: c3 :: c4 :: rest =>
    match b64Val c1, b64Val c2, b64Val c3, b64Val c4, base64Decode rest with
    | some v1, some v2, some v3, some v4, some bs =>
      some ((v1 * 4 + v2 / 16) :: (v2 % 16 * 16 + v3 / 4) :: (v3 % 4 * 64 + v4) :: bs)
    | _, _, _, _, _ => none
  | _ => none

/-! ## The Buffer byte container (src/buffer.ts)

Buffer.from(text, encoding): a 'base64' encoding Base64-decodes the text
into bytes (via atob + charCodeAt); any other encoding (or none) UTF-8
encodes the text.  Every produced buffer carries the same toString:
'base64' Base64-encodes the held bytes (btoa), and ANY other encoding —
recognized or not — falls back to the default UTF-8 TextDecoder. -/

/-- Buffer.from on a string.  atob can throw on malformed Base64, hence
the Option. -/
def bufferFromText (s : List Char) (encoding : List Char) : Option (List Nat) :=
  if encoding = String.toList "base64" then base64Decode s
  else some (utf8Encode s)

/-- Buffer.from on an array-like of numbers: each value is stored into a
Uint8Array slot, i.e. reduced mod 256. -/
def bufferFromBytes (data : List Nat) : List Nat :=
  data.map (fun b => b % 256)

/-- Buffer.alloc: a zero-filled byte sequence. -/
def bufferAlloc (size : Nat) : List Nat :=
  List.replicate size 0

/-- buffer.toString(encoding): 'base64' yields the Base64 text of the
bytes (as code points); any other encoding falls back to UTF-8 decoding
of the held bytes.  The result is the decoded text as code points. -/
def bufferToString (bs : List Nat) (encoding : List Char) : List Nat :=
  if encoding = String.toList "base64" then (base64Encode bs).map Char.toNat
  else utf8DecodeReplace bs

/-! ## Public operations (src/fs.ts)

Each operation normalizes its arguments to an encoding and an optional
callback, then runs one asynchronous task.  The task bodies are embedded
as the *Inner functions; the *Cb functions embed the callback dispatch,
returning the JavaScript argument list the callback is invoked with. -/

/-- The value readFile produces: a string (for utf8 / base64 encodings)
or a Buffer of raw bytes (for binary and any other encoding). -/
inductive FileData where
  | str (codepoints : List Nat)
  | buf (bytes : List Nat)
  deriving DecidableEq, Repr

/-- Data handed to writeFile: a string or a Buffer / Uint8Array. -/
inductive WriteData where
  | str (text : List Char)
  | bytes (data : List Nat)

/-- A JavaScript value as it appears in a callback argument list. -/
inductive JsVal where
  | null
  | errv (e : FsErr)
  | strv (codepoints : List Nat)
  | bufv (bytes : List Nat)
  | boolv (b : Bool)
  | listv (names : List Name)
  deriving DecidableEq, Repr

/-- Conversion of a readFile result to the callback's data argument. -/
def fileDataVal : FileData → JsVal
  | .str cps => .strv cps
  | .buf bs => .bufv bs

/-- readFileAsync: resolve the parent (creating missing directories —
getDirectoryAndFileName always resolves with create), look up the leaf
file without create, read it, and render the content per the encoding:
utf8 / utf-8 via file.text(), base64 via Buffer toString('base64'),
anything else as a raw Buffer.  Any error is rewrapped as a reading
error. -/
def readFileInner (st : SysSt) (path : List Char) (encoding : List Char) :
    SysSt × Except FsErr FileData :=
  let (st', r) := getDirectoryAndFileNameOp st path
    (fun cs leaf => getFileAt cs leaf false)
  match r with
  | .ok content =>
    (st',
      if encoding = String.toList "utf8" ∨ encoding = String.toList "utf-8" then
        .ok (.str (utf8DecodeReplace content))
      else if encoding = String.toList "base64" then
        .ok (.str ((base64Encode content).map Char.toNat))
      else .ok (.buf content))
  | .error e => (st', .error (.wrapped .reading e))

/-- readFile in callback style: success invokes the callback with
(null, data); failure with (err, '') — the empty-string fallback. -/
def readFileCb (st : SysSt) (path : List Char) (encoding : List Char) :
    SysSt × List JsVal :=
  match readFileInner st path encoding with
  | (st', .ok d) => (st', [.null, fileDataVal d])
  | (st', .error e) => (st', [.errv e, .strv []])

/-- writeFileAsync: resolve the parent (always creating missing
directories), get or create the leaf file, open a writable stream and
write — a string with base64 encoding is first Base64-decoded to bytes
(Buffer.from(data, 'base64'); atob failure is caught and rewrapped), a
byte payload is written as-is, any other string is written as text
(UTF-8) — then close, committing the content.  Any error is rewrapped
as a writing error. -/
def writeFileInner (st : SysSt) (path : List Char) (data : WriteData)
    (encoding : List Char) : SysSt × Except FsErr Unit :=
  let (st', r) := getDirectoryAndFileNameOp st path
    (fun cs leaf =>
      match getFileAt cs leaf true with
      | (cs1, .ok _) =>
        match data with
        | .str s =>
          if encoding = String.toList "base64" then
            match base64Decode s with
            | some bytes => (setEntry cs1 leaf (.file bytes), .ok ())
            | none => (cs1, .error .invalidBase64)
          else (setEntry cs1 leaf (.file (utf8Encode s)), .ok ())
        | .bytes bs => (setEntry cs1 leaf (.file bs), .ok ())
      | (cs1, .error e) => (cs1, .error e))
  match r with
  | .ok () => (st', .ok ())
  | .error e => (st', .error (.wrapped .writing e))

/-- writeFile in callback style: success invokes the callback with
(null); failure with (err).  No further argument is passed — reading a
missing argument yields undefined. -/
def writeFileCb (st : SysSt) (path : List Char) (data : WriteData)
    (encoding : List Char) : SysSt × List JsVal :=
  match writeFileInner st path data encoding with
  | (st', .ok ()) => (st', [.null])
  | (st', .error e) => (st', [.errv e])

/-- The try block of exists' checkExists: resolve the parent (creating
missing directories on the way) and look up the leaf with a plain
getFileHandle.  Success means a file exists at the path. -/
def checkExistsInner (st : SysSt) (path : List Char) : SysSt × Except FsErr Unit :=
  let (st', r) := getDirectoryAndFileNameOp st path
    (fun cs leaf =>
      match getFileAt cs leaf false with
      | (cs1, .ok _) => (cs1, .ok ())
      | (cs1, .error e) => (cs1, .error e))
  (st', r)

/-- exists: checkExists with every failure — unsupported environment,
resolution failure, missing or non-file leaf — caught and turned into
false.  It is total: it never throws and never rejects. -/
def existsOp (st : SysSt) (path : List Char) : SysSt × Bool :=
  match checkExistsInner st path with
  | (st', .ok ()) => (st', true)
  | (st', .error _) => (st', false)

/-- exists in callback style: the callback receives the boolean alone
(`callback(exists)`), with no error slot. -/
def existsCb (st : SysSt) (path : List Char) : SysSt × List JsVal :=
  match existsOp st path with
  | (st', b) => (st', [.boolv b])

/-- removeEntry(name) at a directory: removes the named child; a missing
name is notFound, a non-empty directory cannot be removed without
recursive.  The empty name is invalid. -/
def removeEntryAt (cs : List (Name × FsTree)) (n : Name) :
    List (Name × FsTree) × Except FsErr Unit :=
  if n = [] then (cs, .error .invalidName)
  else
    match findEntry cs n with
    | some (.file _) => (cs.filter (fun p => p.1 ≠ n), .ok ())
    | some (.dir []) => (cs.filter (fun p => p.1 ≠ n), .ok ())
    | some (.dir (_ :: _)) => (cs, .error .typeMismatch)
    | none => (cs, .error .notFound)

/-- unlinkFile: resolve the parent (creating missing directories) and
remove the leaf entry; errors are rewrapped as deletion errors. -/
def unlinkInner (st : SysSt) (path : List Char) : SysSt × Except FsErr Unit :=
  let (st', r) := getDirectoryAndFileNameOp st path
    (fun cs leaf => removeEntryAt cs leaf)
  match r with
  | .ok () => (st', .ok ())
  | .error e => (st', .error (.wrapped .deleting e))

/-- unlink in callback style: (null) on success, (err) on failure. -/
def unlinkCb (st : SysSt) (path : List Char) : SysSt × List JsVal :=
  match unlinkInner st path with
  | (st', .ok ()) => (st', [.null])
  | (st', .error e) => (st', [.errv e])

/-- mkdir: the options are normalized (`{ recursive: false, ...options }`)
but createDir never consults them — it always calls
getDirectoryByPath(path, true), which creates every missing segment.
Errors are rewrapped as directory-creation errors. -/
def mkdirOp (st : SysSt) (path : List Char) (recursive : Bool) :
    SysSt × Except FsErr Unit :=
  let _opts : Bool := recursive
  let (st', r) := getDirectoryByPathOp st path true (fun cs => (cs, .ok ()))
  match r with
  | .ok () => (st', .ok ())
  | .error e => (st', .error (.wrapped .creatingDir e))

/-- mkdir in callback style: (null) on success, (err) on failure. -/
def mkdirCb (st : SysSt) (path : List Char) (recursive : Bool) :
    SysSt × List JsVal :=
  match mkdirOp st path recursive with
  | (st', .ok ()) => (st', [.null])
  | (st', .error e) => (st', [.errv e])

/-- readDirectory: resolve the directory without create and enumerate
its immediate children's names in backend order.  Errors are rewrapped
as directory-reading errors. -/
def readdirInner (st : SysSt) (path : List Char) :
    SysSt × Except FsErr (List Name) :=
  let (st', r) := getDirectoryByPathOp st path false
    (fun cs => (cs, .ok (cs.map (fun p => p.1))))
  match r with
  | .ok names => (st', .ok names)
  | .error e => (st', .error (.wrapped .readingDir e))

/-- readdir in callback style: (null, files) on success, (err, []) on
failure. -/
def readdirCb (st : SysSt) (path : List Char) : SysSt × List JsVal :=
  match readdirInner st path with
  | (st', .ok names) => (st', [.null, .listv names])
  | (st', .error e) => (st', [.errv e, .listv []])

/-- The exported constants table of fs.ts, as (name, value) pairs. -/
def constants : List (List Char × Nat) :=
  [(String.toList "F_OK", 0), (String.toList "R_OK", 4),
   (String.toList "W_OK", 2), (String.toList "X_OK", 1)]

/-- Lookup of a constant by name. -/
def constantsLookup (n : List Char) : Option Nat :=
  match constants.find? (fun p => p.1 = n) with
  | some p => some p.2
  | none => none

/-! ## Root-initialization interleavings (fs-utils.ts, §5 of the spec)

initialize() runs `if (!rootDirectory) { rootDirectory = await
navigator.storage.getDirectory(); }` on a single-threaded cooperative
scheduler: the null check and the assignment are separated by a
suspension point (the await), and there is no stored in-flight task.
Two concurrent first-time calls are modelled as two tasks, each stepping
check → (suspended request) → assign; a schedule is the interleaving of
their steps.  Every getDirectory() request returns a fresh handle
identifier, so distinct requests are observable. -/

inductive TaskPc where
  | start    -- about to run the null check
  | awaiting -- saw null, suspended on getDirectory()
  | done
  deriving DecidableEq, Repr

structure InitSt where
  root : Option Nat   -- the module-level rootDirectory (handle id)
  nextHandle : Nat    -- fresh id for the next getDirectory() result
  assignCount : Nat   -- number of assignments to rootDirectory
  pc0 : TaskPc
  pc1 : TaskPc
  deriving DecidableEq, Repr

/-- One step of a task running initialize's body. -/
def initTaskStep (st : InitSt) (pc : TaskPc) : InitSt × TaskPc :=
  match pc with
  | .start => if st.root = none then (st, .awaiting) else (st, .done)
  | .awaiting =>
    ({ st with root := some st.nextHandle,
               nextHandle := st.nextHandle + 1,
               assignCount := st.assignCount + 1 }, .done)
  | .done => (st, .done)

/-- Run one scheduler step: advance task 0 (false) or task 1 (true). -/
def initSchedStep (st : InitSt) (which : Bool) : InitSt :=
  if which then
    let (st', pc') := initTaskStep st st.pc1
    { st' with pc1 := pc' }
  else
    let (st', pc') := initTaskStep st st.pc0
    { st' with pc0 := pc' }

/-- Run a schedule (a list of task choices) from a state. -/
def initRun (st : InitSt) : List Bool → InitSt
  | [] => st
  | w :: ws => initRun (initSchedStep st w) ws

/-- The initial state: no root acquired, both tasks about to check. -/
def initSt0 : InitSt :=
  { root := none, nextHandle := 0, assignCount := 0, pc0 := .start, pc1 := .start }

/-! ## Concrete scenario states used by counterexamples and witnesses -/

/-- A supported environment with an empty backing store. -/
def emptyEnv : SysSt := { supported := true, rootInit := false, store := [] }

/-- A supported environment whose store holds one root-level file
f.txt with content "x". -/
def fileEnv : SysSt :=
  { supported := true, rootInit := false,
    store := [(String.toList "f.txt", .file [120])] }

/-- A supported environment whose store holds one root-level empty
directory d. -/
def dirEnv : SysSt :=
  { supported := true, rootInit := false,
    store := [(String.toList "d", .dir [])] }

/-! # Theorems -/

/-! ## Basic lemmas about the store primitives -/

theorem findEntry_setEntry_self (cs : List (Name × FsTree)) (n : Name) (e : FsTree) :
    findEntry (setEntry cs n e) n = some e := by
  induction cs with
  | nil => simp [setEntry, findEntry]
  | cons p rest ih =>
    by_cases h : p.1 = n
    · simp [setEntry, findEntry, h]
    · simp [setEntry, findEntry, h, ih]

theorem setEntry_findEntry_self (cs : List (Name × FsTree)) (n : Name) (e : FsTree)
    (h : findEntry cs n = some e) : setEntry cs n e = cs := by
  induction cs with
  | nil => simp [findEntry] at h
  | cons p rest ih =>
    by_cases hp : p.1 = n
    · obtain ⟨n', e'⟩ := p
      simp only at hp
      subst hp
      simp [findEntry] at h
      simp [setEntry, h]
    · obtain ⟨n', e'⟩ := p
      simp only at hp
      simp [findEntry, hp] at h
      simp [setEntry, hp, ih h]

theorem getFileAt_fst_no_create (cs : List (Name × FsTree)) (n : Name) :
    (getFileAt cs n false).1 = cs := by
  unfold getFileAt
  split
  · rfl
  · split <;> rfl

/-- A walk over a chain of directories that already exist reaches the
directory the pure lookup names, and — when the continuation leaves the
reached children unchanged — leaves the whole store unchanged. -/
theorem withDirPath_of_lookupPath (segs : List Name) (cs d : List (Name × FsTree))
    (create : Bool) (k : List (Name × FsTree) → List (Name × FsTree) × Except FsErr α)
    (hlook : lookupPath cs segs = some (.dir d)) (hk : (k d).1 = d) :
    withDirPath k cs segs create = (cs, (k d).2) := by
  induction segs generalizing cs d with
  | nil =>
    simp [lookupPath] at hlook
    subst hlook
    simp only [withDirPath]
    rw [Prod.ext_iff]
    exact ⟨hk, rfl⟩
  | cons seg rest ih =>
    simp only [lookupPath] at hlook
    cases hfind : findEntry cs seg with
    | none => rw [hfind] at hlook; simp at hlook
    | some e =>
      rw [hfind] at hlook
      cases e with
      | file c =>
        by_cases hr : rest = [] <;> simp [hr] at hlook
      | dir d1 =>
        simp only at hlook
        simp only [withDirPath, hfind]
        rw [ih d1 d hlook hk]
        rw [setEntry_findEntry_self cs seg (.dir d1) hfind]

/-- A create-mode walk that ends in success leaves a directory at every
prefix of the walked segment list. -/
theorem withDirPath_create_ok_isDirAt (segs : List Name) (cs cs' : List (Name × FsTree))
    (k : List (Name × FsTree) → List (Name × FsTree) × Except FsErr α)
    (a : α) (h : withDirPath k cs segs true = (cs', .ok a)) (n : Nat) :
    isDirAt cs' (segs.take n) = true := by
  induction segs generalizing cs cs' n with
  | nil =>
    simp only [List.take_nil]
    simp [isDirAt, lookupPath]
  | cons seg rest ih =>
    simp only [withDirPath] at h
    cases n with
    | zero => simp [isDirAt, lookupPath]
    | succ m =>
      simp only [List.take_succ_cons]
      cases hfind : findEntry cs seg with
      | some e =>
        cases e with
        | dir d =>
          rw [hfind] at h
          simp only at h
          cases hrec : withDirPath k d rest true with
          | mk d' r =>
            rw [hrec] at h
            simp only at h
            obtain ⟨hcs, hr⟩ := Prod.mk.injEq .. ▸ h
            subst hcs
            subst hr
            simp only [isDirAt, lookupPath, findEntry_setEntry_self]
            exact ih d d' hrec m
        | file c =>
          rw [hfind] at h
          simp at h
      | none =>
        rw [hfind] at h
        simp only [if_pos rfl] at h
        cases hrec : withDirPath k [] rest true with
        | mk d' r =>
          rw [hrec] at h
          simp only at h
          obtain ⟨hcs, hr⟩ := Prod.mk.injEq .. ▸ h
          subst hcs
          subst hr
          simp only [isDirAt, lookupPath, findEntry_setEntry_self]
          exact ih [] d' hrec m

/-- getDirectoryAndFileName, factored through the pure resolution key:
the walked parent segments are resolveParentSegs and the leaf handed to
the continuation is resolveLeafName. -/
theorem getDirectoryAndFileNameOp_spec (st : SysSt) (path : List Char)
    (k : List (Name × FsTree) → Name → List (Name × FsTree) × Except FsErr α) :
    getDirectoryAndFileNameOp st path k =
      match initRootOp st with
      | (st1, .error e) => (st1, .error e)
      | (st1, .ok ()) =>
        let (store', r) :=
          withDirPath (fun cs => k cs (resolveLeafName path)) st1.store
            (resolveParentSegs path) true
        ({ st1 with store := store' }, r) := by
  unfold getDirectoryAndFileNameOp resolveParentSegs resolveLeafName
  cases initRootOp st with
  | mk st1 r =>
    cases r with
    | error e => rfl
    | ok u =>
      cases u
      simp only
      split
      · simp only [withDirPath]
      · rfl

/-- Splitting a lookup along an appended final segment. -/
theorem lookupPath_append_single (xs : List Name) (y : Name)
    (cs d : List (Name × FsTree))
    (h : lookupPath cs (xs ++ [y]) = some (.dir d)) :
    ∃ pd, lookupPath cs xs = some (.dir pd) ∧ findEntry pd y = some (.dir d) := by
  induction xs generalizing cs with
  | nil =>
    simp only [List.nil_append, lookupPath] at h ⊢
    cases hfind : findEntry cs y with
    | none => rw [hfind] at h; simp at h
    | some e =>
      rw [hfind] at h
      cases e with
      | file c => simp at h
      | dir d1 =>
        simp only [lookupPath] at h
        obtain rfl : d1 = d := by
          simpa using h
        exact ⟨cs, rfl, hfind⟩
  | cons x xs ih =>
    simp only [List.cons_append, lookupPath] at h ⊢
    cases hfind : findEntry cs x with
    | none => rw [hfind] at h; simp at h
    | some e =>
      rw [hfind] at h
      cases e with
      | file c =>
        by_cases hx : xs ++ [y] = [] <;> simp [hx] at h
      | dir d1 =>
        simp only at h
        exact ih d1 h

/-! ## Claim C1 — writeFile and a missing parent directory -/

/-- Claim C1, counterexample: writeFile('/no-such-dir/file.txt', 'x')
does NOT reject in an empty store — it succeeds, because
getDirectoryAndFileName always resolves the parent with create, so
'/no-such-dir' is created rather than reported missing. -/
theorem writeFile_missing_parent_cex :
    (writeFileInner emptyEnv (String.toList "/no-such-dir/file.txt")
      (.str (String.toList "x")) (String.toList "utf8")).2 = Except.ok () := by
  decide

/-- Claim C1, amended: writeFile('/no-such-dir/file.txt', 'x') on a
store without '/no-such-dir' succeeds, creating the intermediate
directory '/no-such-dir' automatically and leaving the file there with
the UTF-8 bytes of "x". -/
theorem writeFile_creates_missing_parent :
    (writeFileInner emptyEnv (String.toList "/no-such-dir/file.txt")
      (.str (String.toList "x")) (String.toList "utf8")).2 = Except.ok () ∧
    isDirAt (writeFileInner emptyEnv (String.toList "/no-such-dir/file.txt")
      (.str (String.toList "x")) (String.toList "utf8")).1.store
      [String.toList "no-such-dir"] = true ∧
    fileContentAt (writeFileInner emptyEnv (String.toList "/no-such-dir/file.txt")
      (.str (String.toList "x")) (String.toList "utf8")).1.store
      [String.toList "no-such-dir", String.toList "file.txt"] =
      some (utf8Encode (String.toList "x")) := by
  refine ⟨by decide, by decide, by decide⟩

/-! ## Claim C2 — callback argument conventions -/

/-- Claim C2, counterexample: exists does not follow the
(null, result) success convention — its callback receives the boolean
alone.  On a store holding /f.txt, the callback argument list is
[true], not [null, true]. -/
theorem exists_callback_shape_cex :
    (existsCb fileEnv (String.toList "/f.txt")).2 = [JsVal.boolv true] ∧
    (existsCb fileEnv (String.toList "/f.txt")).2 ≠ [JsVal.null, JsVal.boolv true] := by
  decide

/-- Claim C2, amended: readFile, writeFile, unlink, mkdir and readdir
invoke a supplied callback with (null, result) on success — result
omitted for the write-like operations, so the data slot reads as
undefined — and with (error, fallback) on failure, the fallback being
the empty string for readFile and the empty list for readdir; exists is
the exception: its callback receives the boolean outcome as the sole
argument, never an error. -/
theorem callback_conventions (st : SysSt) (p : List Char) (enc : List Char)
    (d : WriteData) :
    (∀ v, (readFileInner st p enc).2 = .ok v →
      (readFileCb st p enc).2 = [JsVal.null, fileDataVal v]) ∧
    (∀ e, (readFileInner st p enc).2 = .error e →
      (readFileCb st p enc).2 = [JsVal.errv e, JsVal.strv []]) ∧
    ((writeFileInner st p d enc).2 = .ok () → (writeFileCb st p d enc).2 = [JsVal.null]) ∧
    (∀ e, (writeFileInner st p d enc).2 = .error e →
      (writeFileCb st p d enc).2 = [JsVal.errv e]) ∧
    ((unlinkInner st p).2 = .ok () → (unlinkCb st p).2 = [JsVal.null]) ∧
    (∀ e, (unlinkInner st p).2 = .error e → (unlinkCb st p).2 = [JsVal.errv e]) ∧
    (∀ r, (mkdirOp st p r).2 = .ok () → (mkdirCb st p r).2 = [JsVal.null]) ∧
    (∀ r e, (mkdirOp st p r).2 = .error e → (mkdirCb st p r).2 = [JsVal.errv e]) ∧
    (∀ v, (readdirInner st p).2 = .ok v →
      (readdirCb st p).2 = [JsVal.null, JsVal.listv v]) ∧
    (∀ e, (readdirInner st p).2 = .error e →
      (readdirCb st p).2 = [JsVal.errv e, JsVal.listv []]) ∧
    (existsCb st p).2 = [JsVal.boolv (existsOp st p).2] := by
  refine ⟨?_, ?_, ?_, ?_, ?_, ?_, ?_, ?_, ?_, ?_, ?_⟩
  · intro v hv
    unfold readFileCb
    rcases hr : readFileInner st p enc with ⟨st', r⟩
    rw [hr] at hv
    simp only at hv
    cases r with
    | ok w => cases hv; rfl
    | error e => cases hv
  · intro e he
    unfold readFileCb
    rcases hr : readFileInner st p enc with ⟨st', r⟩
    rw [hr] at he
    simp only at he
    cases r with
    | ok w => cases he
    | error e' => cases he; rfl
  · intro hv
    unfold writeFileCb
    rcases hr : writeFileInner st p d enc with ⟨st', r⟩
    rw [hr] at hv
    simp only at hv
    cases r with
    | ok w => rfl
    | error e => cases hv
  · intro e he
    unfold writeFileCb
    rcases hr : writeFileInner st p d enc with ⟨st', r⟩
    rw [hr] at he
    simp only at he
    cases r with
    | ok w => cases he
    | error e' => cases he; rfl
  · intro hv
    unfold unlinkCb
    rcases hr : unlinkInner st p with ⟨st', r⟩
    rw [hr] at hv
    simp only at hv
    cases r with
    | ok w => rfl
    | error e => cases hv
  · intro e he
    unfold unlinkCb
    rcases hr : unlinkInner st p with ⟨st', r⟩
    rw [hr] at he
    simp only at he
    cases r with
    | ok w => cases he
    | error e' => cases he; rfl
  · intro r hv
    unfold mkdirCb
    rcases hr : mkdirOp st p r with ⟨st', q⟩
    rw [hr] at hv
    simp only at hv
    cases q with
    | ok w => rfl
    | error e => cases hv
  · intro r e he
    unfold mkdirCb
    rcases hr : mkdirOp st p r with ⟨st', q⟩
    rw [hr] at he
    simp only at he
    cases q with
    | ok w => cases he
    | error e' => cases he; rfl
  · intro v hv
    unfold readdirCb
    rcases hr : readdirInner st p with ⟨st', r⟩
    rw [hr] at hv
    simp only at hv
    cases r with
    | ok w => cases hv; rfl
    | error e => cases hv
  · intro e he
    unfold readdirCb
    rcases hr : readdirInner st p with ⟨st', r⟩
    rw [hr] at he
    simp only at he
    cases r with
    | ok w => cases he
    | error e' => cases he; rfl
  · unfold existsCb
    rcases hr : existsOp st p with ⟨st', b⟩
    simp [hr]

/-- Witness for callback_conventions at concrete inputs: reading the
existing /f.txt with a callback delivers (null, "x"), and reading a
missing file delivers the wrapped error with the empty-string fallback. -/
theorem callback_conventions_witness :
    (readFileCb fileEnv (String.toList "/f.txt") (String.toList "utf8")).2 =
      [JsVal.null, fileDataVal (FileData.str [120])] ∧
    (readFileCb emptyEnv (String.toList "/nope.txt") (String.toList "utf8")).2 =
      [JsVal.errv (.wrapped .reading .notFound), JsVal.strv []] := by
  refine ⟨?_, ?_⟩
  · exact (callback_conventions fileEnv (String.toList "/f.txt") (String.toList "utf8")
      (.str [])).1 (FileData.str [120]) (by decide)
  · exact (callback_conventions emptyEnv (String.toList "/nope.txt") (String.toList "utf8")
      (.str [])).2.1 (.wrapped .reading .notFound) (by decide)

/-! ## Claim C5 — toString falls back to UTF-8 on any non-base64 encoding -/

/-- Claim C5: for every byte sequence and every encoding argument other
than 'base64' — recognized or not — toString returns the UTF-8 decoding
of the held bytes; the decoder is total, so decoding never fails. -/
theorem toString_fallback_utf8 (bs : List Nat) (enc : List Char)
    (h : enc ≠ String.toList "base64") :
    bufferToString bs enc = utf8DecodeReplace bs := by
  unfold bufferToString
  rw [if_neg h]

/-- Witness for toString_fallback_utf8: the unrecognized encoding
'invalid_encoding' decodes the bytes of "Hi" as UTF-8. -/
theorem toString_fallback_utf8_witness :
    bufferToString [72, 105] (String.toList "invalid_encoding") =
      utf8DecodeReplace [72, 105] :=
  toString_fallback_utf8 [72, 105] (String.toList "invalid_encoding") (by decide)

/-! ## Claim C8 — concurrent first-time root initialization -/

/-- Claim C8, counterexample: under the interleaving check0, check1,
assign0, assign1 both tasks pass the null check before either
assignment, so two getDirectory requests are issued (nextHandle = 2)
and the root is assigned twice (assignCount = 2), ending at the second
handle — not the claimed exactly-once assignment guarded by a shared
in-flight task. -/
theorem init_race_double_assign_cex :
    (initRun initSt0 [false, true, false, true]).assignCount = 2 ∧
    (initRun initSt0 [false, true, false, true]).nextHandle = 2 ∧
    (initRun initSt0 [false, true, false, true]).root = some 1 ∧
    (initRun initSt0 [false, true, false, true]).pc0 = TaskPc.done ∧
    (initRun initSt0 [false, true, false, true]).pc1 = TaskPc.done := by
  decide

/-- One scheduler step preserves the root/assignment invariant. -/
theorem initSchedStep_inv (st : InitSt) (w : Bool)
    (h : st.root = none ↔ st.assignCount = 0) :
    (initSchedStep st w).root = none ↔ (initSchedStep st w).assignCount = 0 := by
  obtain ⟨root, nh, ac, pc0, pc1⟩ := st
  simp only at h
  by_cases hroot : root = none
  · cases w <;> cases pc0 <;> cases pc1 <;>
      simp_all [initSchedStep, initTaskStep]
  · cases w <;> cases pc0 <;> cases pc1 <;>
      simp_all [initSchedStep, initTaskStep]

/-- Runs preserve the root/assignment invariant. -/
theorem initRun_inv (sched : List Bool) (st : InitSt)
    (h : st.root = none ↔ st.assignCount = 0) :
    (initRun st sched).root = none ↔ (initRun st sched).assignCount = 0 := by
  induction sched generalizing st with
  | nil => exact h
  | cons w ws ih => exact ih (initSchedStep st w) (initSchedStep_inv st w h)

/-- Claim C8, amended: initialize guards the root only with a
root-is-null check, not with a memoized in-flight task.  Two first-time
calls that do not interleave assign the root exactly once; two that
interleave before the first assignment each issue their own request and
assign it twice, the later assignment overwriting the earlier; under
every schedule the root is non-null exactly when at least one
assignment has happened. -/
theorem init_race_behavior :
    (initRun initSt0 [false, false, true, true]).assignCount = 1 ∧
    (initRun initSt0 [false, true, false, true]).assignCount = 2 ∧
    ∀ sched : List Bool,
      ((initRun initSt0 sched).root = none ↔ (initRun initSt0 sched).assignCount = 0) := by
  refine ⟨by decide, by decide, ?_⟩
  intro sched
  exact initRun_inv sched initSt0 (by decide)

/-! ## Claim C9 — the exported constants table -/

/-- Claim C9: the constants table exposes F_OK=0, R_OK=4, W_OK=2 and
X_OK=1 and nothing else — in particular none of the O_RDONLY..O_APPEND
open flags the specification lists are present (the code's own test
suite expects them, so the table contradicts the repository's tests). -/
theorem constants_table_contents :
    constantsLookup (String.toList "F_OK") = some 0 ∧
    constantsLookup (String.toList "R_OK") = some 4 ∧
    constantsLookup (String.toList "W_OK") = some 2 ∧
    constantsLookup (String.toList "X_OK") = some 1 ∧
    constantsLookup (String.toList "O_RDONLY") = none ∧
    constantsLookup (String.toList "O_WRONLY") = none ∧
    constantsLookup (String.toList "O_RDWR") = none ∧
    constantsLookup (String.toList "O_CREAT") = none ∧
    constantsLookup (String.toList "O_EXCL") = none ∧
    constantsLookup (String.toList "O_TRUNC") = none ∧
    constantsLookup (String.toList "O_APPEND") = none ∧
    constants.length = 4 := by
  decide

/-! ## Claim C3 — mkdir creates every missing segment; recursive is inert -/

/-- Claim C3: for every state, path and values of the recursive option,
mkdir(path, { recursive }) behaves identically for any flag value, and a
successful mkdir leaves a directory at every prefix of the path's
non-empty segment list — every missing segment was created. -/
theorem mkdir_creates_all_segments (st : SysSt) (p : List Char) (r1 r2 : Bool) :
    mkdirOp st p r1 = mkdirOp st p r2 ∧
    ∀ n, (mkdirOp st p r1).2 = .ok () →
      isDirAt (mkdirOp st p r1).1.store ((nonemptySegs p).take n) = true := by
  constructor
  · rfl
  · intro n h
    unfold mkdirOp getDirectoryByPathOp at h ⊢
    rcases hin : initRootOp st with ⟨st1, rin⟩
    rw [hin] at h
    cases rin with
    | error e => simp at h
    | ok u =>
      cases u
      simp only at h ⊢
      rcases hw : withDirPath (fun cs => (cs, Except.ok ()))
          st1.store (nonemptySegs p) true with ⟨store', r⟩
      rw [hw] at h
      cases r with
      | error e => simp at h
      | ok u =>
        cases u
        simp only
        exact withDirPath_create_ok_isDirAt _ _ _ _ _ hw n

/-- Witness for mkdir_creates_all_segments: mkdir '/a/b' with
recursive false equals mkdir with recursive true, and creates the
intermediate directory /a. -/
theorem mkdir_creates_all_segments_witness :
    mkdirOp emptyEnv (String.toList "/a/b") false =
      mkdirOp emptyEnv (String.toList "/a/b") true ∧
    isDirAt (mkdirOp emptyEnv (String.toList "/a/b") false).1.store
      ((nonemptySegs (String.toList "/a/b")).take 1) = true :=
  ⟨(mkdir_creates_all_segments emptyEnv (String.toList "/a/b") false true).1,
   (mkdir_creates_all_segments emptyEnv (String.toList "/a/b") false true).2 1 (by decide)⟩

/-! ## Claim C7 — exists never throws; true exactly on leaf-lookup success -/

/-- Claim C7: exists is a total boolean operation — it never throws and
never rejects; it threads the state of its try block unchanged and
returns true exactly when the try block — root initialization, parent
resolution and the leaf getFileHandle lookup — succeeds, every failure
anywhere in that chain yielding false. -/
theorem exists_total_ok_iff (st : SysSt) (p : List Char) :
    existsOp st p = ((checkExistsInner st p).1, Except.isOk (checkExistsInner st p).2) ∧
    ((existsOp st p).2 = true ↔ (checkExistsInner st p).2 = .ok ()) := by
  unfold existsOp
  rcases h : checkExistsInner st p with ⟨st', r⟩
  cases r with
  | ok u => cases u; exact ⟨rfl, by simp⟩
  | error e => exact ⟨rfl, by simp⟩

/-! ## Claim C10 — exists answers file existence only -/

/-- In a supported environment, root initialization succeeds and only
(possibly) flips the rootInit flag. -/
theorem initRootOp_supported (st : SysSt) (hs : st.supported = true) :
    initRootOp st = (st, .ok ()) ∨
    initRootOp st = ({ st with rootInit := true }, .ok ()) := by
  unfold initRootOp
  rw [hs]
  by_cases hri : st.rootInit = true
  · left
    simp [hri]
  · right
    simp [hri]

/-- Claim C10: at every path where the resolved location holds a
directory, exists returns false: checkExists only attempts a
getFileHandle on the resolved parent, and that lookup rejects a
directory entry (and the empty leaf name), so exists answers whether a
FILE exists at the path, not whether any entry does. -/
theorem exists_false_on_directory (st : SysSt) (p : List Char)
    (d : List (Name × FsTree)) (hs : st.supported = true)
    (hd : lookupPath st.store (resolveParentSegs p ++ [resolveLeafName p]) =
      some (.dir d)) :
    (existsOp st p).2 = false := by
  obtain ⟨pd, hpd, hfind⟩ := lookupPath_append_single _ _ _ _ hd
  rcases hg : getFileAt pd (resolveLeafName p) false with ⟨cs1, rr⟩
  have hcs1 : cs1 = pd := by
    have hfst := getFileAt_fst_no_create pd (resolveLeafName p)
    rw [hg] at hfst
    exact hfst
  have herr : ∃ e, rr = .error e := by
    unfold getFileAt at hg
    by_cases hleaf : resolveLeafName p = []
    · rw [if_pos hleaf] at hg
      have := congrArg Prod.snd hg
      exact ⟨.invalidName, this.symm⟩
    · rw [if_neg hleaf, hfind] at hg
      have := congrArg Prod.snd hg
      exact ⟨.typeMismatch, this.symm⟩
  obtain ⟨e, he⟩ := herr
  subst hcs1
  subst he
  unfold existsOp checkExistsInner
  rw [getDirectoryAndFileNameOp_spec]
  rcases initRootOp_supported st hs with hin | hin
  all_goals
    rw [hin]
    simp only
    rw [withDirPath_of_lookupPath (resolveParentSegs p) _ cs1 true _ hpd
      (by simp only [hg])]
    simp only [hg]

/-- Witness for exists_false_on_directory: on a store holding the
directory /d, exists('/d') is false. -/
theorem exists_false_on_directory_witness :
    (existsOp dirEnv (String.toList "/d")).2 = false :=
  exists_false_on_directory dirEnv (String.toList "/d") [] rfl (by rfl)

/-! ## Claim C4 — path normalization -/

theorem splitSlash_ne_nil (s : List Char) : splitSlash s ≠ [] := by
  induction s with
  | nil => simp [splitSlash]
  | cons c cs ih =>
    unfold splitSlash
    by_cases hc : c = '/'
    · simp [hc]
    · simp only [if_neg hc]
      cases h : splitSlash cs <;> simp

theorem mem_splitSlash_no_slash (s : List Char) : ∀ x ∈ splitSlash s, '/' ∉ x := by
  induction s with
  | nil =>
    intro x hx
    simp [splitSlash] at hx
    simp [hx]
  | cons c cs ih =>
    intro x hx
    unfold splitSlash at hx
    by_cases hc : c = '/'
    · rw [if_pos hc] at hx
      rcases List.mem_cons.mp hx with rfl | hx'
      · simp
      · exact ih x hx'
    · rw [if_neg hc] at hx
      cases h : splitSlash cs with
      | nil => exact absurd h (splitSlash_ne_nil cs)
      | cons s1 rest =>
        rw [h] at hx
        rcases List.mem_cons.mp hx with rfl | hx'
        · intro hmem
          rcases List.mem_cons.mp hmem with heq | hs1
          · exact hc heq.symm
          · exact ih s1 (h ▸ List.mem_cons_self s1 rest) hs1
        · exact ih x (h ▸ List.mem_cons_of_mem s1 hx')

theorem splitSlash_no_slash_eq (s : List Char) (h : '/' ∉ s) : splitSlash s = [s] := by
  induction s with
  | nil => rfl
  | cons c cs ih =>
    have hc : ¬ c = '/' := fun hc => h (hc ▸ List.mem_cons_self c cs)
    have hcs : '/' ∉ cs := fun hm => h (List.mem_cons_of_mem c hm)
    unfold splitSlash
    rw [if_neg hc, ih hcs]

theorem splitSlash_append_slash (x t : List Char) (h : '/' ∉ x) :
    splitSlash (x ++ '/' :: t) = x :: splitSlash t := by
  induction x with
  | nil => simp [splitSlash]
  | cons c x' ih =>
    have hc : ¬ c = '/' := fun hc => h (hc ▸ List.mem_cons_self c x')
    have hx' : '/' ∉ x' := fun hm => h (List.mem_cons_of_mem c hm)
    rw [List.cons_append, splitSlash, if_neg hc, ih hx']

theorem splitSlash_joinSlash (xs : List (List Char)) (hne : xs ≠ [])
    (h : ∀ x ∈ xs, '/' ∉ x) : splitSlash (joinSlash xs) = xs := by
  induction xs with
  | nil => exact absurd rfl hne
  | cons x xs ih =>
    cases xs with
    | nil =>
      show splitSlash (joinSlash [x]) = [x]
      unfold joinSlash
      exact splitSlash_no_slash_eq x (h x (List.mem_cons_self x []))
    | cons y rest =>
      show splitSlash (joinSlash (x :: y :: rest)) = x :: y :: rest
      unfold joinSlash
      rw [splitSlash_append_slash x _ (h x (List.mem_cons_self x _))]
      rw [ih (by simp) (fun z hz => h z (List.mem_cons_of_mem x hz))]

theorem joinSlash_eq_nil (xs : List (List Char)) (h : joinSlash xs = []) :
    xs = [] ∨ xs = [[]] := by
  cases xs with
  | nil => exact Or.inl rfl
  | cons x rest =>
    cases rest with
    | nil =>
      right
      unfold joinSlash at h
      rw [h]
    | cons y r2 =>
      exfalso
      unfold joinSlash at h
      simp at h

/-- The directory segments getDirectoryAndFileName walks are exactly
the non-empty segments before the last raw segment of the split. -/
theorem resolveParentSegs_eq_filter (p : List Char) :
    resolveParentSegs p =
      ((splitSlash p).dropLast).filter (fun s => s ≠ []) := by
  unfold resolveParentSegs
  by_cases hj : joinSlash (splitSlash p).dropLast = []
  · rw [if_pos hj]
    rcases joinSlash_eq_nil _ hj with he | he <;> rw [he] <;> simp [List.filter]
  · rw [if_neg hj]
    unfold nonemptySegs
    have hne : (splitSlash p).dropLast ≠ [] := by
      intro he
      rw [he] at hj
      exact hj rfl
    rw [splitSlash_joinSlash _ hne]
    intro x hx
    exact mem_splitSlash_no_slash p x (List.dropLast_subset _ hx)

/-- Claim C4, counterexample: '/a/b.txt' and '/a/b.txt/' split to the
same non-empty segments — they differ only by a trailing slash — yet
they resolve to different leaves ('b.txt' versus '') under different
parents (['a'] versus ['a', 'b.txt']). -/
theorem path_normalization_trailing_slash_cex :
    nonemptySegs (String.toList "/a/b.txt") = nonemptySegs (String.toList "/a/b.txt/") ∧
    resolveLeafName (String.toList "/a/b.txt") ≠ resolveLeafName (String.toList "/a/b.txt/") ∧
    resolveParentSegs (String.toList "/a/b.txt") ≠
      resolveParentSegs (String.toList "/a/b.txt/") := by
  decide

/-- Claim C4, amended: two paths that split to the same sequence of
non-empty segments AND have the same final raw segment — repeated
slashes anywhere before the leaf, such as '/a//b.txt' versus
'/a/b.txt', but not a differing trailing slash — resolve to the same
parent segment chain and the same leaf name, so every operation built
on getDirectoryAndFileName or getDirectoryByPath behaves identically
on the two paths. -/
theorem path_normalization_same_leaf (p1 p2 : List Char)
    (hsegs : nonemptySegs p1 = nonemptySegs p2)
    (hlast : (splitSlash p1).getLast? = (splitSlash p2).getLast?) :
    resolveParentSegs p1 = resolveParentSegs p2 ∧
    resolveLeafName p1 = resolveLeafName p2 ∧
    (∀ (α : Type) (st : SysSt)
      (k : List (Name × FsTree) → Name → List (Name × FsTree) × Except FsErr α),
      getDirectoryAndFileNameOp st p1 k = getDirectoryAndFileNameOp st p2 k) ∧
    (∀ (α : Type) (st : SysSt) (create : Bool)
      (k : List (Name × FsTree) → List (Name × FsTree) × Except FsErr α),
      getDirectoryByPathOp st p1 create k = getDirectoryByPathOp st p2 create k) := by
  have hA : splitSlash p1 ≠ [] := splitSlash_ne_nil p1
  have hB : splitSlash p2 ≠ [] := splitSlash_ne_nil p2
  have hlastAB : (splitSlash p1).getLast hA = (splitSlash p2).getLast hB := by
    have h1 := List.getLast?_eq_getLast (splitSlash p1) hA
    have h2 := List.getLast?_eq_getLast (splitSlash p2) hB
    rw [h1, h2] at hlast
    exact Option.some.injEq .. ▸ hlast
  have hparent : resolveParentSegs p1 = resolveParentSegs p2 := by
    rw [resolveParentSegs_eq_filter, resolveParentSegs_eq_filter]
    have e1 : (splitSlash p1).dropLast ++ [(splitSlash p1).getLast hA] = splitSlash p1 :=
      List.dropLast_concat_getLast hA
    have e2 : (splitSlash p2).dropLast ++ [(splitSlash p2).getLast hB] = splitSlash p2 :=
      List.dropLast_concat_getLast hB
    have hfil : nonemptySegs p1 = nonemptySegs p2 := hsegs
    unfold nonemptySegs at hfil
    rw [← e1, ← e2, List.filter_append, List.filter_append, hlastAB] at hfil
    exact List.append_cancel_right hfil
  have hleaf : resolveLeafName p1 = resolveLeafName p2 := by
    unfold resolveLeafName
    rw [hlast]
  refine ⟨hparent, hleaf, ?_, ?_⟩
  · intro α st k
    rw [getDirectoryAndFileNameOp_spec, getDirectoryAndFileNameOp_spec, hparent, hleaf]
  · intro α st create k
    unfold getDirectoryByPathOp
    rw [hsegs]

/-- Witness for path_normalization_same_leaf: '/a//b.txt' and
'/a/b.txt' resolve identically, and exists agrees on them. -/
theorem path_normalization_same_leaf_witness :
    resolveParentSegs (String.toList "/a//b.txt") =
      resolveParentSegs (String.toList "/a/b.txt") ∧
    resolveLeafName (String.toList "/a//b.txt") =
      resolveLeafName (String.toList "/a/b.txt") :=
  ⟨(path_normalization_same_leaf (String.toList "/a//b.txt") (String.toList "/a/b.txt")
      (by decide) (by decide)).1,
   (path_normalization_same_leaf (String.toList "/a//b.txt") (String.toList "/a/b.txt")
      (by decide) (by decide)).2.1⟩

/-! ## Claim C6 — UTF-8 round-trip through the Buffer container -/

theorem utf8Run_lead (b : Nat) (bs : List Nat) :
    utf8Run (b :: bs) utf8St0 =
      match utf8LeadStep b with
      | (out, st') => out ++ utf8Run bs st' := by
  rw [utf8Run]
  rw [if_pos (show utf8St0.needed = 0 by rfl)]

theorem utf8LeadStep_ascii (b : Nat) (h : b < 0x80) :
    utf8LeadStep b = ([b], utf8St0) := by
  unfold utf8LeadStep
  rw [if_pos h]

theorem utf8LeadStep_two (b : Nat) (h1 : 0xC2 ≤ b) (h2 : b < 0xE0) :
    utf8LeadStep b = ([], { needed := 1, acc := b - 0xC0, lo := 0x80, hi := 0xBF }) := by
  unfold utf8LeadStep
  rw [if_neg (by omega), if_neg (by omega), if_pos h2]

theorem utf8LeadStep_three (b : Nat) (h1 : 0xE0 ≤ b) (h2 : b < 0xF0) :
    utf8LeadStep b =
      ([], { needed := 2, acc := b - 0xE0,
             lo := if b = 0xE0 then 0xA0 else 0x80,
             hi := if b = 0xED then 0x9F else 0xBF }) := by
  unfold utf8LeadStep
  rw [if_neg (by omega), if_neg (by omega), if_neg (by omega), if_pos h2]

theorem utf8LeadStep_four (b : Nat) (h1 : 0xF0 ≤ b) (h2 : b < 0xF5) :
    utf8LeadStep b =
      ([], { needed := 3, acc := b - 0xF0,
             lo := if b = 0xF0 then 0x90 else 0x80,
             hi := if b = 0xF4 then 0x8F else 0xBF }) := by
  unfold utf8LeadStep
  rw [if_neg (by omega), if_neg (by omega), if_neg (by omega), if_neg (by omega),
    if_pos h2]

theorem utf8Run_cont_last (b : Nat) (bs : List Nat) (acc lo hi : Nat)
    (hlo : lo ≤ b) (hhi : b ≤ hi) :
    utf8Run (b :: bs) { needed := 1, acc := acc, lo := lo, hi := hi } =
      (acc * 64 + (b - 0x80)) :: utf8Run bs utf8St0 := by
  rw [utf8Run]
  rw [if_neg (by simp), if_pos ⟨hlo, hhi⟩, if_pos rfl]

theorem utf8Run_cont_mid (b : Nat) (bs : List Nat) (n acc lo hi : Nat)
    (hlo : lo ≤ b) (hhi : b ≤ hi) :
    utf8Run (b :: bs) { needed := n + 2, acc := acc, lo := lo, hi := hi } =
      utf8Run bs { needed := n + 1, acc := acc * 64 + (b - 0x80),
                   lo := 0x80, hi := 0xBF } := by
  rw [utf8Run]
  rw [if_neg (by simp), if_pos ⟨hlo, hhi⟩, if_neg (by simp)]
  simp

/-- Decoding inverts the encoding of one valid Unicode scalar value,
whatever bytes follow. -/
theorem utf8Run_encodeChar (c : Nat) (h : Nat.isValidChar c) (rest : List Nat) :
    utf8Run (utf8EncodeChar c ++ rest) utf8St0 = c :: utf8Run rest utf8St0 := by
  rcases Nat.lt_or_ge c 0x80 with h1 | h1
  · have he : utf8EncodeChar c = [c] := by
      unfold utf8EncodeChar
      rw [if_pos h1]
    rw [he, List.cons_append, List.nil_append, utf8Run_lead, utf8LeadStep_ascii c h1]
    rfl
  · rcases Nat.lt_or_ge c 0x800 with h2 | h2
    · have he : utf8EncodeChar c = [0xC0 + c / 64, 0x80 + c % 64] := by
        unfold utf8EncodeChar
        rw [if_neg (by omega), if_pos h2]
      rw [he]
      show utf8Run ((0xC0 + c / 64) :: (0x80 + c % 64) :: rest) utf8St0 = _
      rw [utf8Run_lead, utf8LeadStep_two (0xC0 + c / 64) (by omega) (by omega)]
      show utf8Run ((0x80 + c % 64) :: rest)
        { needed := 1, acc := 0xC0 + c / 64 - 0xC0, lo := 0x80, hi := 0xBF } = _
      rw [utf8Run_cont_last _ _ _ _ _ (by omega) (by omega)]
      have hval : (0xC0 + c / 64 - 0xC0) * 64 + (0x80 + c % 64 - 0x80) = c := by omega
      rw [hval]
    · rcases Nat.lt_or_ge c 0x10000 with h3 | h3
      · have hsur : c < 0xD800 ∨ 0xDFFF < c := by
          rcases h with hlt | ⟨hgt, _⟩
          · exact Or.inl hlt
          · exact Or.inr hgt
        have he : utf8EncodeChar c =
            [0xE0 + c / 4096, 0x80 + c / 64 % 64, 0x80 + c % 64] := by
          unfold utf8EncodeChar
          rw [if_neg (by omega), if_neg (by omega), if_pos h3]
        rw [he]
        show utf8Run ((0xE0 + c / 4096) :: (0x80 + c / 64 % 64) :: (0x80 + c % 64) ::
          rest) utf8St0 = _
        rw [utf8Run_lead, utf8LeadStep_three (0xE0 + c / 4096) (by omega) (by omega)]
        show utf8Run ((0x80 + c / 64 % 64) :: (0x80 + c % 64) :: rest)
          { needed := 2, acc := 0xE0 + c / 4096 - 0xE0,
            lo := if 0xE0 + c / 4096 = 0xE0 then 0xA0 else 0x80,
            hi := if 0xE0 + c / 4096 = 0xED then 0x9F else 0xBF } = _
        rw [utf8Run_cont_mid _ _ 0 _ _ _ (by split <;> omega) (by split <;> omega)]
        rw [utf8Run_cont_last _ _ _ _ _ (by omega) (by omega)]
        have hval : ((0xE0 + c / 4096 - 0xE0) * 64 + (0x80 + c / 64 % 64 - 0x80)) * 64 +
            (0x80 + c % 64 - 0x80) = c := by omega
        rw [hval]
      · have h4 : c < 0x110000 := by
          rcases h with hlt | ⟨_, hub⟩
          · omega
          · exact hub
        have he : utf8EncodeChar c =
            [0xF0 + c / 0x40000, 0x80 + c / 4096 % 64, 0x80 + c / 64 % 64,
             0x80 + c % 64] := by
          unfold utf8EncodeChar
          rw [if_neg (by omega), if_neg (by omega), if_neg (by omega)]
        rw [he]
        show utf8Run ((0xF0 + c / 0x40000) :: (0x80 + c / 4096 % 64) ::
          (0x80 + c / 64 % 64) :: (0x80 + c % 64) :: rest) utf8St0 = _
        rw [utf8Run_lead, utf8LeadStep_four (0xF0 + c / 0x40000) (by omega) (by omega)]
        show utf8Run ((0x80 + c / 4096 % 64) :: (0x80 + c / 64 % 64) ::
          (0x80 + c % 64) :: rest)
          { needed := 3, acc := 0xF0 + c / 0x40000 - 0xF0,
            lo := if 0xF0 + c / 0x40000 = 0xF0 then 0x90 else 0x80,
            hi := if 0xF0 + c / 0x40000 = 0xF4 then 0x8F else 0xBF } = _
        rw [utf8Run_cont_mid _ _ 1 _ _ _ (by split <;> omega) (by split <;> omega)]
        rw [utf8Run_cont_mid _ _ 0 _ _ _ (by omega) (by omega)]
        rw [utf8Run_cont_last _ _ _ _ _ (by omega) (by omega)]
        have hval : (((0xF0 + c / 0x40000 - 0xF0) * 64 + (0x80 + c / 4096 % 64 - 0x80)) *
            64 + (0x80 + c / 64 % 64 - 0x80)) * 64 + (0x80 + c % 64 - 0x80) = c := by
          omega
        rw [hval]

/-- Decoding inverts the encoding of any string, character by
character. -/
theorem utf8DecodeReplace_utf8Encode (s : List Char) :
    utf8DecodeReplace (utf8Encode s) = s.map Char.toNat := by
  unfold utf8DecodeReplace
  induction s with
  | nil => rfl
  | cons c cs ih =>
    show utf8Run (utf8EncodeChar c.toNat ++ utf8Encode cs) utf8St0 = _
    rw [utf8Run_encodeChar c.toNat c.valid (utf8Encode cs), ih]
    rfl

/-- Claim C6: constructing a Buffer from a string with encoding utf8
and decoding it back with toString('utf8') yields exactly the original
text (as its code-point sequence) for every valid Unicode string. -/
theorem utf8_roundtrip_buffer (s : List Char) :
    (bufferFromText s (String.toList "utf8")).map
      (fun bs => bufferToString bs (String.toList "utf8")) =
      some (s.map Char.toNat) := by
  have hfrom : bufferFromText s (String.toList "utf8") = some (utf8Encode s) := by
    unfold bufferFromText
    rw [if_neg (by decide)]
  rw [hfrom]
  show some (bufferToString (utf8Encode s) (String.toList "utf8")) =
    some (s.map Char.toNat)
  have hto : bufferToString (utf8Encode s) (String.toList "utf8") =
      utf8DecodeReplace (utf8Encode s) := by
    unfold bufferToString
    rw [if_neg (by decide)]
  rw [hto, utf8DecodeReplace_utf8Encode]

end OpfsKit
